import Mathlib

/-!
# Verification of the kb-de analytics core

Shallow embedding of the trend-classification and hourly-aggregation logic of
`app/analytics/trend_analyzer.py` and `app/analytics/analytics.py`.

Numeric values are modelled as rationals (`ℚ`); Python floats are idealised as
exact arithmetic.  Statistics whose values are irrational over `ℚ`
(the coefficient of variation uses a square root, seasonal decomposition uses
statsmodels) are kept as function parameters of the pipeline: the claims about them
only concern whether and how their results flow, never their numeric value.
-/

/-- Constant `MIN_DATA_POINTS` from trend_analyzer.py. -/
def MIN_DATA_POINTS : Nat := 2

/-- Constant `TrendAnalyzer.BIOMETRIC_TYPES`. -/
def BIOMETRIC_TYPES : List String := ["glucose", "weight", "blood_pressure"]

/-- Lookup `TrendAnalyzer.STABILITY_THRESHOLDS.get(biometric_type, 0.1)`:
glucose 0.1, weight 0.03, blood_pressure 0.07, default 0.1. -/
def stabilityThreshold (biometric_type : String) : ℚ :=
  if biometric_type = "glucose" then 1/10
  else if biometric_type = "weight" then 3/100
  else if biometric_type = "blood_pressure" then 7/100
  else 1/10

/-- Result of `TrendAnalyzer._linear_trend_analysis`. -/
structure LinearTrend where
  slope : ℚ
  intercept : ℚ
  r_squared : ℚ
deriving DecidableEq, Repr

/-- Result of `TrendAnalyzer._seasonal_decomposition` when it succeeds. -/
structure SeasonalResult where
  trend_strength : ℚ
  seasonality_strength : ℚ
deriving DecidableEq, Repr

/-- The `analysis_results` dict assembled in `analyze_patient_trend`. -/
structure AnalysisResults where
  linear_trend : LinearTrend
  percentage_change : ℚ
  volatility : ℚ
  seasonal_decomposition : Option SeasonalResult
deriving DecidableEq, Repr

/-- Method `TrendAnalyzer._classify_trend`: ordered threshold rules producing a label. -/
def classify_trend (biometric_type : String) (results : AnalysisResults) : String :=
  let linear := results.linear_trend
  let pct_change := results.percentage_change
  let volatility := results.volatility
  let threshold := stabilityThreshold biometric_type
  if volatility > threshold * 2 then "volatile"
  else if |linear.slope| < threshold ∧ |pct_change| < threshold * 10 then "stable"
  else if (linear.slope > 0 ∧ pct_change > 0) ∨
      (linear.r_squared > 7/10 ∧ linear.slope > 0) then "increasing"
  else if (linear.slope < 0 ∧ pct_change < 0) ∨
      (linear.r_squared > 7/10 ∧ linear.slope < 0) then "decreasing"
  else "stable"

/-- Method `TrendAnalyzer._percentage_change`: `((values[-1] - values[0]) / values[0]) * 100`,
`0.0` when fewer than two points or the first value is `0`. -/
def percentage_change (values : List ℚ) : ℚ :=
  if values.length < 2 ∨ values.headI = 0 then 0
  else (values.getLastD 0 - values.headI) / values.headI * 100

/-- The same computation written the way the claim states it: the first and last
elements addressed by position on a list of length ≥ 2. -/
def percentage_change_spec (values : List ℚ) : ℚ :=
  match values with
  | [] => 0
  | [_] => 0
  | v0 :: v1 :: rest =>
      if v0 = 0 then 0
      else (((v1 :: rest).getLast (by simp) - v0) / v0) * 100

/-- Minimum of a list of rationals (`np.min` / the seed of a fold);
`0` on the empty list, which the callers never hit. -/
def listMin : List ℚ → ℚ
  | [] => 0
  | v :: l => l.foldl min v

/-- Maximum of a list of rationals. -/
def listMax : List ℚ → ℚ
  | [] => 0
  | v :: l => l.foldl max v

/-- Quantity `ss_res` of `_calculate_r_squared`: the residual sum of squares
`np.sum((y - y_pred) ** 2)`, rendered as a map over `x.zip y`. -/
def ssRes (x y : List ℚ) (slope intercept : ℚ) : ℚ :=
  ((x.zip y).map (fun q => (q.2 - (slope * q.1 + intercept)) ^ 2)).sum

/-- Quantity `ss_tot` of `_calculate_r_squared`: the total sum of squares
`np.sum((y - np.mean(y)) ** 2)`. -/
def ssTot (y : List ℚ) : ℚ :=
  (y.map (fun v => (v - y.sum / (y.length : ℚ)) ^ 2)).sum

/-- Method `TrendAnalyzer._calculate_r_squared`: `1 - ss_res / ss_tot` with the
`ss_tot == 0` guard returning `0`. -/
def calculate_r_squared (x y : List ℚ) (slope intercept : ℚ) : ℚ :=
  let ss_res := ssRes x y slope intercept
  let ss_tot := ssTot y
  if ss_tot ≠ 0 then 1 - ss_res / ss_tot else 0

/-- Method `TrendAnalyzer._linear_trend_analysis`: normalise the time axis by
subtracting its minimum, then solve the ordinary least-squares system
`value = slope * t_norm + intercept`.  `np.linalg.lstsq` is embedded by its
closed form when the normal-equation determinant `d` is nonzero; `d = 0` is
exactly the rank-deficient case (after min-subtraction, `x_norm` is the zero
vector), where lstsq returns the minimum-norm solution `slope = 0,
intercept = mean(y)`. -/
def linear_trend_analysis (timestamps values : List ℚ) : LinearTrend :=
  let x_norm := timestamps.map (fun t => t - listMin timestamps)
  let n : ℚ := (x_norm.length : ℚ)
  let sx := x_norm.sum
  let sy := values.sum
  let sxx := (x_norm.map (fun a => a * a)).sum
  let sxy := ((x_norm.zip values).map (fun q => q.1 * q.2)).sum
  let d := n * sxx - sx * sx
  if d = 0 then
    { slope := 0, intercept := sy / n,
      r_squared := calculate_r_squared x_norm values 0 (sy / n) }
  else
    let slope := (n * sxy - sx * sy) / d
    let intercept := (sy - slope * sx) / n
    { slope := slope, intercept := intercept,
      r_squared := calculate_r_squared x_norm values slope intercept }

/-- A `biometrics` row as read by the analyzer.  The three numeric columns are
modelled as total fields; only the ones selected by the metric type are read. -/
structure Measurement where
  value : ℚ
  systolic : ℚ
  diastolic : ℚ
  timestamp : ℚ
deriving DecidableEq, Repr

/-- A `biometric_trends` table row (`BiometricTrend` model). -/
structure TrendRow where
  patient_id : ℤ
  biometric_type : String
  trend : String
  analyzed_at : ℚ
deriving DecidableEq, Repr

/-- The body of the `try:` block in `TrendAnalyzer._store_trend`: query by
(patient_id, biometric_type) with `one_or_none` (raises `MultipleResultsFound`
on ≥ 2 found), mutate the found row or add a new one, then commit — which
the store may reject (`commitFails`). Exceptions are the `error` branch. -/
def store_trend_body (commitFails : Bool) (table : List TrendRow)
    (patient_id : ℤ) (biometric_type trend : String) (now : ℚ) :
    Except String (List TrendRow) :=
  let found := table.filter
    (fun r => decide (r.patient_id = patient_id ∧ r.biometric_type = biometric_type))
  if 2 ≤ found.length then .error "MultipleResultsFound"
  else
    let newTable :=
      match found with
      | [] => table ++ [⟨patient_id, biometric_type, trend, now⟩]
      | _ => table.map (fun r =>
          if r.patient_id = patient_id ∧ r.biometric_type = biometric_type then
            { r with trend := trend, analyzed_at := now }
          else r)
    if commitFails then .error "commit failed" else .ok newTable

/-- Method `TrendAnalyzer._store_trend`: the try-body wrapped in the
`except Exception:` handler — any failure is logged (`true` flag) and the
session rolled back (table returned unchanged); nothing is re-raised. -/
def store_trend (commitFails : Bool) (table : List TrendRow)
    (patient_id : ℤ) (biometric_type trend : String) (now : ℚ) :
    List TrendRow × Bool :=
  match store_trend_body commitFails table patient_id biometric_type trend now with
  | .ok t => (t, false)
  | .error _ => (table, true)

/-- Number of rows of the trend table carrying a given
(patient_id, biometric_type) key. -/
def keyCount (table : List TrendRow) (k : ℤ × String) : ℕ :=
  table.countP (fun r => decide (r.patient_id = k.1 ∧ r.biometric_type = k.2))

/-- Method `TrendAnalyzer.analyze_patient_trend` for one (patient, metric) unit, over
the already-fetched window of measurements.  The four statistics are passed as
functions (`volF` and `seasonalF` compute irrational values in the source;
`linearF`/`pctF` are instantiated with their exact embeddings where needed).
Returns the trend table after the store step together with the statistical
payload that was computed (`none` on the insufficient-data early return). -/
def analyze_patient_trend (commitFails : Bool) (table : List TrendRow)
    (linearF : List ℚ → List ℚ → LinearTrend) (pctF volF : List ℚ → ℚ)
    (seasonalF : List ℚ → List ℚ → Option SeasonalResult)
    (patient_id : ℤ) (biometric_type : String)
    (measurements : List Measurement) (now : ℚ) :
    List TrendRow × Option AnalysisResults :=
  if measurements.length < MIN_DATA_POINTS then
    ((store_trend commitFails table patient_id biometric_type "insufficient_data" now).1,
      none)
  else
    let values :=
      if biometric_type = "blood_pressure" then
        measurements.map (fun m => (m.systolic + m.diastolic) / 2)
      else
        measurements.map (fun m => m.value)
    let timestamps := measurements.map (fun m => m.timestamp)
    let analysis_results : AnalysisResults :=
      { linear_trend := linearF timestamps values,
        percentage_change := pctF values,
        volatility := volF values,
        seasonal_decomposition := seasonalF timestamps values }
    let trend := classify_trend biometric_type analysis_results
    ((store_trend commitFails table patient_id biometric_type trend now).1,
      some analysis_results)

/-- Method `TrendAnalyzer.analyze_all_patients`: for every patient and every biometric
type, run the per-unit analysis inside a `try/except` that logs and continues.
The per-unit work is abstracted as `analyzeUnit`, whose exception outcome
(`Except`) is caught and recorded; the fold never short-circuits. -/
def analyze_all_patients {E : Type} (patients : List ℤ)
    (analyzeUnit : ℤ → String → Except E Unit) :
    List (ℤ × String × Except E Unit) :=
  patients.foldl (fun acc patient =>
    BIOMETRIC_TYPES.foldl (fun acc2 biometric_type =>
      acc2 ++ [(patient, biometric_type, analyzeUnit patient biometric_type)]) acc) []

/-- A raw input row of `aggregate_hourly` (`analytics.py`): the loader has
already truncated the timestamp to the hour and normalised blood pressure into
two synthetic series, so the row is keyed by an hour bucket. -/
structure RawRow where
  patient_id : ℤ
  biometric_type : String
  hour_start : ℤ
  value : ℚ
deriving DecidableEq, Repr

/-- The grouping key `(patient_id, biometric_type, hour_start)`. -/
def RawRow.key (r : RawRow) : ℤ × String × ℤ :=
  (r.patient_id, r.biometric_type, r.hour_start)

/-- An output row of `aggregate_hourly` /
a `patient_biometric_hourly_summary` row. -/
structure AggRow where
  patient_id : ℤ
  biometric_type : String
  hour_start : ℤ
  min_value : ℚ
  max_value : ℚ
  avg_value : ℚ
  count : ℕ
deriving DecidableEq, Repr

/-- The conflict key of the summary table. -/
def AggRow.key (r : AggRow) : ℤ × String × ℤ :=
  (r.patient_id, r.biometric_type, r.hour_start)

/-- The numeric payload of a summary row (the columns overwritten on
conflict). -/
structure AggValues where
  min_value : ℚ
  max_value : ℚ
  avg_value : ℚ
  count : ℕ
deriving DecidableEq, Repr

/-- Payload of an aggregate row. -/
def AggRow.vals (r : AggRow) : AggValues :=
  ⟨r.min_value, r.max_value, r.avg_value, r.count⟩

/-- Round half to even (the rounding of numpy / pandas `round`). -/
def roundHalfEven (q : ℚ) : ℤ :=
  let f := ⌊q⌋
  let r := q - f
  if r < 1/2 then f
  else if 1/2 < r then f + 1
  else if f % 2 = 0 then f else f + 1

/-- Rounding `.round(2)` applied to the mean column. -/
def round2 (q : ℚ) : ℚ := (roundHalfEven (q * 100) : ℚ) / 100

/-- The values of the group of rows sharing a key — the contributing set of
one `groupby` bucket. -/
def group_values (df : List RawRow) (k : ℤ × String × ℤ) : List ℚ :=
  (df.filter (fun r => decide (r.key = k))).map RawRow.value

/-- Function `aggregate_hourly` (`analytics.py`): group the rows by
`(patient_id, biometric_type, hour_start)` and reduce every group to
min / max / mean-rounded-to-2-decimals / count.  The pandas `groupby` is
embedded as: one output row per distinct key, built from the sub-list of
input rows having that key. -/
def aggregate_hourly (df : List RawRow) : List AggRow :=
  ((df.map RawRow.key).dedup).map (fun k =>
    let grp := group_values df k
    { patient_id := k.1, biometric_type := k.2.1, hour_start := k.2.2,
      min_value := listMin grp, max_value := listMax grp,
      avg_value := round2 (grp.sum / (grp.length : ℚ)),
      count := grp.length })

/-- Function `upsert_aggregates` (`analytics.py`) against a store mapping the conflict
key to the stored payload: `INSERT ... ON CONFLICT (key) DO UPDATE` row by
row — each row overwrites whatever the store holds at its key. -/
def upsert_aggregates (rows : List AggRow)
    (store : ℤ × String × ℤ → Option AggValues) :
    ℤ × String × ℤ → Option AggValues :=
  rows.foldl (fun s row => fun k => if k = row.key then some row.vals else s k) store

/-! ## Theorems -/

/-- Claim C9: the percentage-change primitive returns
`((last - first) / first) * 100` on series of length ≥ 2 with nonzero first
element, and exactly `0` on shorter series or when the first element is `0` —
the source computation coincides with the positional statement of the claim
on every input. -/
theorem claim_C9_percentage_change (values : List ℚ) :
    percentage_change values = percentage_change_spec values := by
  match values with
  | [] => rfl
  | [v] => rfl
  | v0 :: v1 :: rest =>
    simp only [percentage_change, percentage_change_spec, List.length_cons,
      List.headI]
    have hlen : ¬ (rest.length + 1 + 1 < 2) := by omega
    have hlast : (v0 :: v1 :: rest).getLastD 0 = (v1 :: rest).getLast (by simp) := by
      rw [List.getLastD_eq_getLast?, List.getLast?_eq_getLast (v0 :: v1 :: rest) (by simp)]
      simp [List.getLast_cons]
    by_cases h0 : v0 = 0
    · simp [h0, hlen]
    · have h2 : (v1 :: rest).getLast? = some ((v1 :: rest).getLast (by simp)) :=
        List.getLast?_eq_getLast _ _
      simp [hlen, h0, hlast, h2]

/-- Claim C10: the trend label never reads the seasonal-decomposition signal —
two analysis results agreeing on linear trend, percentage change and
volatility (their seasonal components may differ arbitrarily, including one
being `none`) classify identically for every metric type. -/
theorem claim_C10_seasonal_noninterference (biometric_type : String)
    (r1 r2 : AnalysisResults)
    (hlin : r1.linear_trend = r2.linear_trend)
    (hpct : r1.percentage_change = r2.percentage_change)
    (hvol : r1.volatility = r2.volatility) :
    classify_trend biometric_type r1 = classify_trend biometric_type r2 := by
  obtain ⟨l1, p1, v1, s1⟩ := r1
  obtain ⟨l2, p2, v2, s2⟩ := r2
  simp only at hlin hpct hvol
  subst hlin hpct hvol
  rfl

/-- Claim C1: the classifier applies its ordered rules first-match-first: rule 1
gives `volatile` exactly when `volatility > 2 * threshold` (strict, so equality
at the boundary is never `volatile`); otherwise rule 2 gives `stable` when both
magnitudes are small; otherwise rule 3 gives `increasing`, rule 4 `decreasing`,
and the fallback is `stable`. -/
theorem claim_C1_classifier_first_match (biometric_type : String)
    (r : AnalysisResults) :
    (r.volatility > stabilityThreshold biometric_type * 2 →
      classify_trend biometric_type r = "volatile") ∧
    (classify_trend biometric_type r = "volatile" →
      r.volatility > stabilityThreshold biometric_type * 2) ∧
    (¬ r.volatility > stabilityThreshold biometric_type * 2 →
      (|r.linear_trend.slope| < stabilityThreshold biometric_type ∧
        |r.percentage_change| < stabilityThreshold biometric_type * 10) →
      classify_trend biometric_type r = "stable") ∧
    (¬ r.volatility > stabilityThreshold biometric_type * 2 →
      ¬ (|r.linear_trend.slope| < stabilityThreshold biometric_type ∧
        |r.percentage_change| < stabilityThreshold biometric_type * 10) →
      ((r.linear_trend.slope > 0 ∧ r.percentage_change > 0) ∨
        (r.linear_trend.r_squared > 7/10 ∧ r.linear_trend.slope > 0)) →
      classify_trend biometric_type r = "increasing") ∧
    (¬ r.volatility > stabilityThreshold biometric_type * 2 →
      ¬ (|r.linear_trend.slope| < stabilityThreshold biometric_type ∧
        |r.percentage_change| < stabilityThreshold biometric_type * 10) →
      ¬ ((r.linear_trend.slope > 0 ∧ r.percentage_change > 0) ∨
        (r.linear_trend.r_squared > 7/10 ∧ r.linear_trend.slope > 0)) →
      ((r.linear_trend.slope < 0 ∧ r.percentage_change < 0) ∨
        (r.linear_trend.r_squared > 7/10 ∧ r.linear_trend.slope < 0)) →
      classify_trend biometric_type r = "decreasing") ∧
    (¬ r.volatility > stabilityThreshold biometric_type * 2 →
      ¬ (|r.linear_trend.slope| < stabilityThreshold biometric_type ∧
        |r.percentage_change| < stabilityThreshold biometric_type * 10) →
      ¬ ((r.linear_trend.slope > 0 ∧ r.percentage_change > 0) ∨
        (r.linear_trend.r_squared > 7/10 ∧ r.linear_trend.slope > 0)) →
      ¬ ((r.linear_trend.slope < 0 ∧ r.percentage_change < 0) ∨
        (r.linear_trend.r_squared > 7/10 ∧ r.linear_trend.slope < 0)) →
      classify_trend biometric_type r = "stable") := by
  simp only [classify_trend]
  split_ifs with h1 h2 h3 h4 <;>
    refine ⟨?_, ?_, ?_, ?_, ?_, ?_⟩ <;> intros <;>
      first
        | rfl
        | exact h1
        | tauto

/-- Witness for C1: glucose (threshold 0.1) with volatility exactly at the
boundary `2 * threshold = 0.2` is not `volatile` (it falls through to rule 3
and comes out `increasing`), while volatility `0.21` is `volatile`. -/
theorem claim_C1_witness :
    classify_trend "glucose" ⟨⟨1, 0, 0⟩, 50, 1/5, none⟩ ≠ "volatile" ∧
    classify_trend "glucose" ⟨⟨1, 0, 0⟩, 50, 21/100, none⟩ = "volatile" := by
  constructor
  · intro hvol
    have h := (claim_C1_classifier_first_match "glucose"
      ⟨⟨1, 0, 0⟩, 50, 1/5, none⟩).2.1 hvol
    rw [show stabilityThreshold "glucose" = 1/10 from rfl] at h
    norm_num at h
  · exact (claim_C1_classifier_first_match "glucose"
      ⟨⟨1, 0, 0⟩, 50, 21/100, none⟩).1
      (by rw [show stabilityThreshold "glucose" = 1/10 from rfl]; norm_num)

/-- Claim C2: whenever the fetched series is shorter than `MIN_DATA_POINTS`,
the per-unit analysis persists `insufficient_data` and stops — the outcome is
the store step applied to the label `insufficient_data` with an empty
statistical payload, for every choice of the four statistics functions (hence
no regression, percentage change, volatility or seasonal decomposition is
computed). -/
theorem claim_C2_insufficient_data (commitFails : Bool) (table : List TrendRow)
    (linearF : List ℚ → List ℚ → LinearTrend) (pctF volF : List ℚ → ℚ)
    (seasonalF : List ℚ → List ℚ → Option SeasonalResult)
    (patient_id : ℤ) (biometric_type : String)
    (measurements : List Measurement) (now : ℚ)
    (h : measurements.length < MIN_DATA_POINTS) :
    analyze_patient_trend commitFails table linearF pctF volF seasonalF
        patient_id biometric_type measurements now =
      ((store_trend commitFails table patient_id biometric_type
          "insufficient_data" now).1, none) := by
  simp [analyze_patient_trend, h]

/-- Witness for C2: the empty series is below the threshold and yields the
stored `insufficient_data` sentinel with no statistics, here with the concrete
regression and percentage-change embeddings plugged in. -/
theorem claim_C2_witness :
    ([] : List Measurement).length < MIN_DATA_POINTS ∧
    analyze_patient_trend false [] linear_trend_analysis percentage_change
        (fun _ => 0) (fun _ _ => none) 1 "glucose" [] 0 =
      ((store_trend false [] 1 "glucose" "insufficient_data" 0).1, none) :=
  ⟨by decide, claim_C2_insufficient_data false [] linear_trend_analysis
    percentage_change (fun _ => 0) (fun _ _ => none) 1 "glucose" [] 0 (by decide)⟩

/-- Unrolling the orchestrator's nested fold: it appends one record per
(patient, biometric type) pair, in iteration order, whatever the per-unit
outcomes are. -/
theorem analyze_all_patients_foldl_eq {E : Type}
    (analyzeUnit : ℤ → String → Except E Unit) :
    ∀ (patients : List ℤ) (acc : List (ℤ × String × Except E Unit)),
      patients.foldl (fun a patient =>
        BIOMETRIC_TYPES.foldl (fun a2 biometric_type =>
          a2 ++ [(patient, biometric_type, analyzeUnit patient biometric_type)]) a)
        acc =
      acc ++ (patients.map (fun p =>
        BIOMETRIC_TYPES.map (fun bt => (p, bt, analyzeUnit p bt)))).flatten := by
  intro patients
  induction patients with
  | nil => intro acc; simp
  | cons p ps ih =>
    intro acc
    rw [List.foldl_cons, ih]
    simp [BIOMETRIC_TYPES]

/-- Claim C6: the orchestrator isolates per-unit failures — for every patient
list and every per-unit behaviour (including ones that fail on any subset of
units), the run completes and the sequence of processed (patient, metric)
units is exactly the full iteration product, so no failure ever prevents a
later unit from being analyzed. -/
theorem claim_C6_failure_isolation {E : Type} (patients : List ℤ)
    (analyzeUnit : ℤ → String → Except E Unit) :
    (analyze_all_patients patients analyzeUnit).map (fun u => (u.1, u.2.1)) =
      (patients.map (fun p => BIOMETRIC_TYPES.map (fun bt => (p, bt)))).flatten := by
  unfold analyze_all_patients
  rw [analyze_all_patients_foldl_eq analyzeUnit patients []]
  simp only [List.nil_append, List.map_flatten, List.map_map]
  rfl

/-- Counterexample to C7 as stated: on a store that rejects the write, the
exception raised by the commit inside the try-body is consumed by the
`except` handler — `_store_trend` returns normally (table unchanged, failure
only logged), so no error propagates out of the store step to its caller. -/
theorem claim_C7_counterexample :
    store_trend_body true [] 1 "glucose" "stable" 0 = .error "commit failed" ∧
    store_trend true [] 1 "glucose" "stable" 0 = ([], true) := by
  constructor <;> rfl

/-- Claim C7 (amended): when the store rejects a trend write, the failure is
logged and the session rolled back — the trend table is returned to the caller
unchanged for every prior state — but the error is swallowed inside the store
step rather than surfaced to its caller. -/
theorem claim_C7_rollback_and_swallow (table : List TrendRow)
    (patient_id : ℤ) (biometric_type trend : String) (now : ℚ) :
    store_trend true table patient_id biometric_type trend now = (table, true) := by
  simp only [store_trend, store_trend_body]
  split_ifs <;> rfl

/-- Behaviour of a successful store under the at-most-one-row precondition:
the commit goes through and the table is either extended by the new row or
rewritten with the matching row updated in place. -/
theorem store_trend_ok_eq (table : List TrendRow)
    (patient_id : ℤ) (biometric_type trend : String) (now : ℚ)
    (h : (table.filter (fun r =>
      decide (r.patient_id = patient_id ∧ r.biometric_type = biometric_type))).length ≤ 1) :
    (store_trend false table patient_id biometric_type trend now).1 =
      match table.filter (fun r =>
          decide (r.patient_id = patient_id ∧ r.biometric_type = biometric_type)) with
      | [] => table ++ [⟨patient_id, biometric_type, trend, now⟩]
      | _ => table.map (fun r =>
          if r.patient_id = patient_id ∧ r.biometric_type = biometric_type then
            { r with trend := trend, analyzed_at := now }
          else r) := by
  have h2 : ¬ 2 ≤ (table.filter (fun r =>
      decide (r.patient_id = patient_id ∧ r.biometric_type = biometric_type))).length := by
    omega
  simp only [store_trend, store_trend_body]
  rw [if_neg h2]
  rfl

/-- The count of a key distributes over table append. -/
theorem keyCount_append (t1 t2 : List TrendRow) (k : ℤ × String) :
    keyCount (t1 ++ t2) k = keyCount t1 k + keyCount t2 k :=
  List.countP_append _ _ _

/-- The count of a key on a one-row table. -/
theorem keyCount_single (r : TrendRow) (k : ℤ × String) :
    keyCount [r] k =
      if r.patient_id = k.1 ∧ r.biometric_type = k.2 then 1 else 0 := by
  simp [keyCount, List.countP_cons]

/-- The in-place update of `_store_trend` only rewrites `trend` and
`analyzed_at`, so it changes no key of the table. -/
theorem keyCount_map_update (table : List TrendRow)
    (patient_id : ℤ) (biometric_type trend : String) (now : ℚ) (k : ℤ × String) :
    keyCount (table.map (fun r =>
        if r.patient_id = patient_id ∧ r.biometric_type = biometric_type then
          { r with trend := trend, analyzed_at := now }
        else r)) k = keyCount table k := by
  unfold keyCount
  rw [List.countP_map]
  apply List.countP_congr
  intro r _
  by_cases hc : r.patient_id = patient_id ∧ r.biometric_type = biometric_type <;>
    simp [hc, Function.comp]

/-- Claim C8: the store step keeps at most one trend row per
(patient_id, biometric_type) key — under that invariant, a successful store
leaves exactly one row for the written key (mutated in place when it existed,
inserted once when it did not), touches no other key, and never duplicates. -/
theorem claim_C8_one_row_per_key (table : List TrendRow)
    (patient_id : ℤ) (biometric_type trend : String) (now : ℚ)
    (hinv : ∀ k, keyCount table k ≤ 1) :
    (∀ k, keyCount (store_trend false table patient_id biometric_type trend now).1 k ≤ 1) ∧
    keyCount (store_trend false table patient_id biometric_type trend now).1
      (patient_id, biometric_type) = 1 ∧
    (∀ k, k ≠ (patient_id, biometric_type) →
      keyCount (store_trend false table patient_id biometric_type trend now).1 k =
        keyCount table k) ∧
    (keyCount table (patient_id, biometric_type) = 1 →
      (store_trend false table patient_id biometric_type trend now).1.length =
        table.length) ∧
    (keyCount table (patient_id, biometric_type) = 0 →
      (store_trend false table patient_id biometric_type trend now).1.length =
        table.length + 1) := by
  have hcnt : keyCount table (patient_id, biometric_type) =
      (table.filter (fun r =>
        decide (r.patient_id = patient_id ∧ r.biometric_type = biometric_type))).length := by
    simp [keyCount, List.countP_eq_length_filter]
  have hle : keyCount table (patient_id, biometric_type) ≤ 1 := hinv _
  have hres := store_trend_ok_eq table patient_id biometric_type trend now
    (by omega)
  cases hfe : table.filter (fun r =>
      decide (r.patient_id = patient_id ∧ r.biometric_type = biometric_type)) with
  | nil =>
    rw [hfe] at hres
    have hzero : keyCount table (patient_id, biometric_type) = 0 := by
      rw [hcnt, hfe]; rfl
    refine ⟨?_, ?_, ?_, ?_, ?_⟩
    · intro k
      rw [hres, keyCount_append, keyCount_single]
      by_cases hk : k = (patient_id, biometric_type)
      · subst hk; simp; omega
      · obtain ⟨k1, k2⟩ := k
        have hne : ¬ (patient_id = k1 ∧ biometric_type = k2) := by
          intro hcon
          exact hk (by rw [← hcon.1, ← hcon.2])
        simp only [hne, if_false]
        have := hinv (k1, k2)
        omega
    · rw [hres, keyCount_append, keyCount_single, hzero]
      simp
    · intro k hk
      obtain ⟨k1, k2⟩ := k
      rw [hres, keyCount_append, keyCount_single]
      have hne : ¬ (patient_id = k1 ∧ biometric_type = k2) := by
        intro hcon
        exact hk (by rw [← hcon.1, ← hcon.2])
      simp [hne]
    · intro h1; rw [hzero] at h1; omega
    · intro _; rw [hres]; simp
  | cons f fs =>
    rw [hfe] at hres
    have hone : keyCount table (patient_id, biometric_type) = 1 := by
      have hle2 := hle
      rw [hcnt, hfe] at hle2
      rw [hcnt, hfe]
      simp only [List.length_cons] at hle2 ⊢
      omega
    refine ⟨?_, ?_, ?_, ?_, ?_⟩
    · intro k; rw [hres, keyCount_map_update]; exact hinv k
    · rw [hres, keyCount_map_update]; exact hone
    · intro k _; rw [hres, keyCount_map_update]
    · intro _; rw [hres]; simp
    · intro h0; rw [hone] at h0; omega

/-- A `min`-fold lands on its seed or on one of the folded elements. -/
theorem foldl_min_mem : ∀ (l : List ℚ) (v : ℚ), l.foldl min v ∈ v :: l := by
  intro l
  induction l with
  | nil => intro v; simp
  | cons a t ih =>
    intro v
    have h := ih (min v a)
    rw [List.foldl_cons]
    rcases List.mem_cons.mp h with h1 | h1
    · rcases min_choice v a with h2 | h2
      · rw [h1, h2]; exact List.mem_cons_self _ _
      · rw [h1, h2]; exact List.mem_cons_of_mem _ (List.mem_cons_self _ _)
    · exact List.mem_cons_of_mem _ (List.mem_cons_of_mem _ h1)

/-- A `min`-fold is a lower bound of its seed and all folded elements. -/
theorem foldl_min_le : ∀ (l : List ℚ) (v x : ℚ), x ∈ v :: l → l.foldl min v ≤ x := by
  intro l
  induction l with
  | nil =>
    intro v x hx
    rw [List.mem_singleton] at hx
    simp [hx]
  | cons a t ih =>
    intro v x hx
    rw [List.foldl_cons]
    rcases List.mem_cons.mp hx with rfl | hx1
    · exact le_trans (ih _ _ (List.mem_cons_self _ _)) (min_le_left _ _)
    · rcases List.mem_cons.mp hx1 with rfl | hx2
      · exact le_trans (ih _ _ (List.mem_cons_self _ _)) (min_le_right _ _)
      · exact ih _ _ (List.mem_cons_of_mem _ hx2)

/-- A `max`-fold lands on its seed or on one of the folded elements. -/
theorem foldl_max_mem : ∀ (l : List ℚ) (v : ℚ), l.foldl max v ∈ v :: l := by
  intro l
  induction l with
  | nil => intro v; simp
  | cons a t ih =>
    intro v
    have h := ih (max v a)
    rw [List.foldl_cons]
    rcases List.mem_cons.mp h with h1 | h1
    · rcases max_choice v a with h2 | h2
      · rw [h1, h2]; exact List.mem_cons_self _ _
      · rw [h1, h2]; exact List.mem_cons_of_mem _ (List.mem_cons_self _ _)
    · exact List.mem_cons_of_mem _ (List.mem_cons_of_mem _ h1)

/-- A `max`-fold is an upper bound of its seed and all folded elements. -/
theorem le_foldl_max : ∀ (l : List ℚ) (v x : ℚ), x ∈ v :: l → x ≤ l.foldl max v := by
  intro l
  induction l with
  | nil =>
    intro v x hx
    rw [List.mem_singleton] at hx
    simp [hx]
  | cons a t ih =>
    intro v x hx
    rw [List.foldl_cons]
    rcases List.mem_cons.mp hx with rfl | hx1
    · exact le_trans (le_max_left _ _) (ih _ _ (List.mem_cons_self _ _))
    · rcases List.mem_cons.mp hx1 with rfl | hx2
      · exact le_trans (le_max_right _ _) (ih _ _ (List.mem_cons_self _ _))
      · exact ih _ _ (List.mem_cons_of_mem _ hx2)

/-- The minimum of a nonempty list is an element of it. -/
theorem listMin_mem (l : List ℚ) (h : l ≠ []) : listMin l ∈ l := by
  cases l with
  | nil => exact absurd rfl h
  | cons v t => exact foldl_min_mem t v

/-- The minimum bounds every element from below. -/
theorem listMin_le (l : List ℚ) (x : ℚ) (hx : x ∈ l) : listMin l ≤ x := by
  cases l with
  | nil => simp at hx
  | cons v t => exact foldl_min_le t v x hx

/-- The maximum of a nonempty list is an element of it. -/
theorem listMax_mem (l : List ℚ) (h : l ≠ []) : listMax l ∈ l := by
  cases l with
  | nil => exact absurd rfl h
  | cons v t => exact foldl_max_mem t v

/-- The maximum bounds every element from above. -/
theorem le_listMax (l : List ℚ) (x : ℚ) (hx : x ∈ l) : x ≤ listMax l := by
  cases l with
  | nil => simp at hx
  | cons v t => exact le_foldl_max t v x hx

/-- The keys of the aggregate output are exactly the deduplicated input keys. -/
theorem aggregate_hourly_keys (df : List RawRow) :
    (aggregate_hourly df).map AggRow.key = (df.map RawRow.key).dedup := by
  unfold aggregate_hourly
  rw [List.map_map]
  have h : (AggRow.key ∘ fun k : ℤ × String × ℤ =>
      ({ patient_id := k.1, biometric_type := k.2.1, hour_start := k.2.2,
         min_value := listMin (group_values df k),
         max_value := listMax (group_values df k),
         avg_value := round2 ((group_values df k).sum /
           ((group_values df k).length : ℚ)),
         count := (group_values df k).length } : AggRow)) = id :=
    funext fun k => rfl
  rw [h, List.map_id]

/-- Claim C3: the hourly aggregator partitions its input — output keys are
pairwise distinct, every input row's key owns exactly one output row, no
output row exists without contributing input rows, and on every output row
`count` is the size of its group (hence ≥ 1), `min_value`/`max_value` are an
attained lower/upper bound of the group's values, and `avg_value` is the group
mean rounded to two decimals. -/
theorem claim_C3_grouping (df : List RawRow) :
    ((aggregate_hourly df).map AggRow.key).Nodup ∧
    (∀ r ∈ df, r.key ∈ (aggregate_hourly df).map AggRow.key) ∧
    (∀ g ∈ aggregate_hourly df, g.key ∈ df.map RawRow.key) ∧
    (∀ g ∈ aggregate_hourly df,
      g.count = (group_values df g.key).length ∧
      1 ≤ g.count ∧
      g.min_value ∈ group_values df g.key ∧
      (∀ v ∈ group_values df g.key, g.min_value ≤ v) ∧
      g.max_value ∈ group_values df g.key ∧
      (∀ v ∈ group_values df g.key, v ≤ g.max_value) ∧
      g.avg_value = round2 ((group_values df g.key).sum /
        ((group_values df g.key).length : ℚ))) := by
  refine ⟨?_, ?_, ?_, ?_⟩
  · rw [aggregate_hourly_keys]
    exact List.nodup_dedup _
  · intro r hr
    rw [aggregate_hourly_keys]
    exact List.mem_dedup.mpr (List.mem_map_of_mem _ hr)
  · intro g hg
    have : g.key ∈ (aggregate_hourly df).map AggRow.key := List.mem_map_of_mem _ hg
    rw [aggregate_hourly_keys] at this
    exact List.mem_dedup.mp this
  · intro g hg
    obtain ⟨k, hk, rfl⟩ := List.mem_map.mp hg
    have hmem : k ∈ df.map RawRow.key := List.mem_dedup.mp hk
    obtain ⟨r, hr, hrk⟩ := List.mem_map.mp hmem
    have hne : group_values df k ≠ [] := by
      have hrf : r ∈ df.filter (fun r' => decide (r'.key = k)) :=
        List.mem_filter.mpr ⟨hr, by simp [hrk]⟩
      exact List.ne_nil_of_mem (List.mem_map_of_mem _ hrf)
    have hlen : 1 ≤ (group_values df k).length := List.length_pos.mpr hne
    exact ⟨rfl, hlen, listMin_mem _ hne, fun v hv => listMin_le _ v hv,
      listMax_mem _ hne, fun v hv => le_listMax _ v hv, rfl⟩

/-- Witness for C3: two glucose rows in the same hour and one weight row in
another — the glucose output row aggregates exactly its two contributors. -/
theorem claim_C3_witness :
    (⟨1, "glucose", 10, 100, 120, 110, 2⟩ : AggRow) ∈
      aggregate_hourly
        [⟨1, "glucose", 10, 100⟩, ⟨1, "glucose", 10, 120⟩, ⟨2, "weight", 11, 70⟩] ∧
    (⟨1, "glucose", 10, 100, 120, 110, 2⟩ : AggRow).count =
      (group_values
        [⟨1, "glucose", 10, 100⟩, ⟨1, "glucose", 10, 120⟩, ⟨2, "weight", 11, 70⟩]
        (⟨1, "glucose", 10, 100, 120, 110, 2⟩ : AggRow).key).length := by
  have hmem : (⟨1, "glucose", 10, 100, 120, 110, 2⟩ : AggRow) ∈
      aggregate_hourly
        [⟨1, "glucose", 10, 100⟩, ⟨1, "glucose", 10, 120⟩, ⟨2, "weight", 11, 70⟩] := by
    norm_num [aggregate_hourly, group_values, RawRow.key, listMin, listMax,
      round2, roundHalfEven, List.dedup_cons_of_not_mem, List.dedup_cons_of_mem]
  exact ⟨hmem,
    ((claim_C3_grouping
      [⟨1, "glucose", 10, 100⟩, ⟨1, "glucose", 10, 120⟩, ⟨2, "weight", 11, 70⟩]).2.2.2
      _ hmem).1⟩

/-- Expansion of the residual sum of squares into the elementary power sums. -/
theorem ssRes_expand (x : List ℚ) (b a : ℚ) :
    ∀ (y : List ℚ), x.length = y.length →
    ssRes x y b a =
      (y.map (fun v => v ^ 2)).sum + b ^ 2 * (x.map (fun t => t * t)).sum +
        (x.length : ℚ) * a ^ 2 -
        2 * b * ((x.zip y).map (fun q => q.1 * q.2)).sum - 2 * a * y.sum +
        2 * a * b * x.sum := by
  induction x with
  | nil =>
    intro y h
    cases y with
    | nil => simp [ssRes]
    | cons yh yt => simp at h
  | cons xa xt ih =>
    intro y h
    cases y with
    | nil => simp at h
    | cons ya yt =>
      have h' : xt.length = yt.length := by simpa using h
      have ihy := ih yt h'
      simp only [ssRes, List.zip_cons_cons, List.map_cons, List.sum_cons,
        List.length_cons] at ihy ⊢
      rw [ihy]
      push_cast
      ring

/-- Expansion of a sum of squared deviations from an arbitrary centre. -/
theorem sum_sq_dev_expand (y : List ℚ) (m : ℚ) :
    (y.map (fun v => (v - m) ^ 2)).sum =
      (y.map (fun v => v ^ 2)).sum - 2 * m * y.sum + (y.length : ℚ) * m ^ 2 := by
  induction y with
  | nil => simp
  | cons a t ih =>
    simp only [List.map_cons, List.sum_cons, List.length_cons]
    rw [ih]
    push_cast
    ring

/-- The residual sum of squares is nonnegative. -/
theorem ssRes_nonneg (x y : List ℚ) (b a : ℚ) : 0 ≤ ssRes x y b a := by
  apply List.sum_nonneg
  intro z hz
  rw [List.mem_map] at hz
  obtain ⟨q, _, rfl⟩ := hz
  positivity

/-- The total sum of squares is nonnegative. -/
theorem ssTot_nonneg (y : List ℚ) : 0 ≤ ssTot y := by
  apply List.sum_nonneg
  intro z hz
  rw [List.mem_map] at hz
  obtain ⟨v, _, rfl⟩ := hz
  positivity

/-- The determinant of the normal equations, `n·Σx² − (Σx)²`, is
nonnegative (Cauchy–Schwarz). -/
theorem det_nonneg (x : List ℚ) :
    0 ≤ (x.length : ℚ) * (x.map (fun t => t * t)).sum - x.sum * x.sum := by
  induction x with
  | nil => simp
  | cons c t ih =>
    have hs : 0 ≤ (t.map (fun u => (u - c) ^ 2)).sum := by
      apply List.sum_nonneg
      intro z hz
      rw [List.mem_map] at hz
      obtain ⟨u, _, rfl⟩ := hz
      positivity
    have hfun : (fun u : ℚ => u * u) = fun u : ℚ => u ^ 2 := by
      funext u
      ring
    have he : ((c :: t).length : ℚ) * ((c :: t).map (fun u => u * u)).sum -
        (c :: t).sum * (c :: t).sum =
        ((t.length : ℚ) * (t.map (fun u => u * u)).sum - t.sum * t.sum) +
          (t.map (fun u => (u - c) ^ 2)).sum := by
      simp only [List.map_cons, List.sum_cons, List.length_cons, sum_sq_dev_expand,
        hfun]
      push_cast
      ring
    rw [he]
    exact add_nonneg ih hs

/-- Variance decomposition at any intercept satisfying its normal equation:
`n · (SS_tot − SS_res)` is a quadratic in the slope whose value at the
least-squares slope will be a square. -/
theorem ss_key (x y : List ℚ) (b a : ℚ) (h : x.length = y.length)
    (hn : (x.length : ℚ) ≠ 0)
    (ha : a * (x.length : ℚ) = y.sum - b * x.sum) :
    (x.length : ℚ) * (ssTot y - ssRes x y b a) =
      2 * b * ((x.length : ℚ) * ((x.zip y).map (fun q => q.1 * q.2)).sum -
          x.sum * y.sum) -
        b ^ 2 * ((x.length : ℚ) * (x.map (fun t => t * t)).sum - x.sum * x.sum) := by
  have hyl : (y.length : ℚ) = (x.length : ℚ) := by rw [h]
  have ha' : a = (y.sum - b * x.sum) / (x.length : ℚ) := by
    field_simp
    linarith [ha]
  rw [ssRes_expand x b a y h]
  unfold ssTot
  rw [sum_sq_dev_expand y (y.sum / (y.length : ℚ)), hyl, ha']
  field_simp
  ring

/-- With slope `0` and intercept the mean, the residual and total sums of
squares coincide. -/
theorem ssRes_zero_slope (x y : List ℚ) (h : x.length = y.length) :
    ssRes x y 0 (y.sum / (x.length : ℚ)) = ssTot y := by
  have hyl : (y.length : ℚ) = (x.length : ℚ) := by rw [h]
  rw [ssRes_expand x 0 (y.sum / (x.length : ℚ)) y h]
  unfold ssTot
  rw [sum_sq_dev_expand y (y.sum / (y.length : ℚ)), hyl]
  ring

/-- Whenever the residual sum of squares is below the total one, the computed
R² lies in `[0, 1]`. -/
theorem calculate_r_squared_bounds (x y : List ℚ) (b a : ℚ)
    (hle : ssRes x y b a ≤ ssTot y) :
    0 ≤ calculate_r_squared x y b a ∧ calculate_r_squared x y b a ≤ 1 := by
  simp only [calculate_r_squared]
  by_cases ht : ssTot y = 0
  · simp [ht]
  · have hpos : 0 < ssTot y := lt_of_le_of_ne (ssTot_nonneg y) (Ne.symm ht)
    rw [if_pos ht]
    constructor
    · have hone : ssRes x y b a / ssTot y ≤ 1 := (div_le_one hpos).mpr hle
      linarith
    · have hnn : 0 ≤ ssRes x y b a / ssTot y :=
        div_nonneg (ssRes_nonneg x y b a) (le_of_lt hpos)
      linarith

/-- The zero-variance guard: R² is `0` outright when `SS_tot = 0`. -/
theorem calculate_r_squared_of_ssTot_eq_zero (x y : List ℚ) (b a : ℚ)
    (ht : ssTot y = 0) : calculate_r_squared x y b a = 0 := by
  simp [calculate_r_squared, ht]

/-- At the closed-form least-squares fit, the residual sum of squares never
exceeds the total sum of squares. -/
theorem ssRes_le_ssTot_fit (x y : List ℚ) (h : x.length = y.length)
    (hn : (x.length : ℚ) ≠ 0)
    (hd : (x.length : ℚ) * (x.map (fun t => t * t)).sum - x.sum * x.sum ≠ 0) :
    ssRes x y
      (((x.length : ℚ) * ((x.zip y).map (fun q => q.1 * q.2)).sum - x.sum * y.sum) /
        ((x.length : ℚ) * (x.map (fun t => t * t)).sum - x.sum * x.sum))
      ((y.sum -
        (((x.length : ℚ) * ((x.zip y).map (fun q => q.1 * q.2)).sum - x.sum * y.sum) /
          ((x.length : ℚ) * (x.map (fun t => t * t)).sum - x.sum * x.sum)) * x.sum) /
        (x.length : ℚ)) ≤ ssTot y := by
  set n : ℚ := (x.length : ℚ) with hn_def
  set sx := x.sum with hsx_def
  set sy := y.sum with hsy_def
  set sxx := (x.map (fun t => t * t)).sum with hsxx_def
  set sxy := ((x.zip y).map (fun q => q.1 * q.2)).sum with hsxy_def
  set d := n * sxx - sx * sx with hd_def
  set b := (n * sxy - sx * sy) / d with hb_def
  set a := (sy - b * sx) / n with ha_def
  have ha : a * n = sy - b * sx := by
    rw [ha_def]
    field_simp
  have hkey := ss_key x y b a h hn ha
  rw [← hn_def, ← hsx_def, ← hsy_def, ← hsxx_def, ← hsxy_def, ← hd_def] at hkey
  have hbd : b * d = n * sxy - sx * sy := by
    rw [hb_def]
    field_simp
  rw [← hbd] at hkey
  have hkey2 : n * (ssTot y - ssRes x y b a) = b ^ 2 * d := by
    rw [hkey]; ring
  have hd0 : 0 ≤ d := by
    rw [hd_def, hn_def, hsxx_def, hsx_def]
    exact det_nonneg x
  have hdpos : 0 < d := lt_of_le_of_ne hd0 (Ne.symm hd)
  have hn0 : (0 : ℚ) ≤ n := by rw [hn_def]; positivity
  have hnpos : 0 < n := lt_of_le_of_ne hn0 (Ne.symm hn)
  have hdiff : ssTot y - ssRes x y b a = b ^ 2 * d / n := by
    rw [eq_div_iff hn]
    linarith [hkey2]
  have hnn : 0 ≤ b ^ 2 * d / n :=
    div_nonneg (mul_nonneg (sq_nonneg b) hdpos.le) hnpos.le
  linarith [hdiff, hnn]

/-- Claim C4: for every series of length ≥ 2, the R² of the linear trend
analysis lies in `[0, 1]` — in particular it is never negative — and it is `0`
outright when the total sum of squares vanishes (constant series), instead of
dividing by zero. -/
theorem claim_C4_r_squared_range (timestamps values : List ℚ)
    (hlen : timestamps.length = values.length) (h2 : 2 ≤ values.length) :
    0 ≤ (linear_trend_analysis timestamps values).r_squared ∧
    (linear_trend_analysis timestamps values).r_squared ≤ 1 ∧
    (ssTot values = 0 → (linear_trend_analysis timestamps values).r_squared = 0) := by
  have hx : (timestamps.map (fun t => t - listMin timestamps)).length =
      values.length := by
    rw [List.length_map, hlen]
  have hnz : values.length ≠ 0 := by omega
  have hn : (((timestamps.map (fun t => t - listMin timestamps)).length : ℚ)) ≠ 0 := by
    rw [hx]
    exact_mod_cast hnz
  simp only [linear_trend_analysis]
  by_cases hd : ((timestamps.map (fun t => t - listMin timestamps)).length : ℚ) *
      ((timestamps.map (fun t => t - listMin timestamps)).map (fun c => c * c)).sum -
      (timestamps.map (fun t => t - listMin timestamps)).sum *
        (timestamps.map (fun t => t - listMin timestamps)).sum = 0
  · rw [if_pos hd]
    have heq : ssRes (timestamps.map (fun t => t - listMin timestamps)) values 0
        (values.sum / ((timestamps.map (fun t => t - listMin timestamps)).length : ℚ)) =
        ssTot values :=
      ssRes_zero_slope _ values hx
    have hb := calculate_r_squared_bounds
      (timestamps.map (fun t => t - listMin timestamps)) values 0
      (values.sum / ((timestamps.map (fun t => t - listMin timestamps)).length : ℚ))
      (le_of_eq heq)
    exact ⟨hb.1, hb.2, fun ht =>
      calculate_r_squared_of_ssTot_eq_zero _ values _ _ ht⟩
  · rw [if_neg hd]
    have hle := ssRes_le_ssTot_fit
      (timestamps.map (fun t => t - listMin timestamps)) values hx hn hd
    have hb := calculate_r_squared_bounds
      (timestamps.map (fun t => t - listMin timestamps)) values _ _ hle
    exact ⟨hb.1, hb.2, fun ht =>
      calculate_r_squared_of_ssTot_eq_zero _ values _ _ ht⟩

/-- Witness for C4: the two-point series `values = [1, 2]` at times `[0, 1]`
satisfies the length hypotheses, and its R² obeys the claimed bounds. -/
theorem claim_C4_witness :
    ([0, 1] : List ℚ).length = ([1, 2] : List ℚ).length ∧
    2 ≤ ([1, 2] : List ℚ).length ∧
    (0 ≤ (linear_trend_analysis [0, 1] [1, 2]).r_squared ∧
      (linear_trend_analysis [0, 1] [1, 2]).r_squared ≤ 1 ∧
      (ssTot [1, 2] = 0 → (linear_trend_analysis [0, 1] [1, 2]).r_squared = 0)) :=
  ⟨rfl, by norm_num, claim_C4_r_squared_range [0, 1] [1, 2] rfl (by norm_num)⟩

/-- Pointwise description of the upsert loop: a key written by some row holds
the payload of the last row carrying it, independently of the previous store;
a key no row carries keeps its previous binding. -/
theorem upsert_aggregates_apply (rows : List AggRow)
    (store : ℤ × String × ℤ → Option AggValues) (k : ℤ × String × ℤ) :
    upsert_aggregates rows store k =
      match rows.reverse.find? (fun r => decide (r.key = k)) with
      | some r => some r.vals
      | none => store k := by
  induction rows generalizing store with
  | nil => rfl
  | cons r rs ih =>
    show upsert_aggregates rs
        (fun k' => if k' = r.key then some r.vals else store k') k = _
    rw [ih]
    rw [List.reverse_cons, List.find?_append]
    cases hf : rs.reverse.find? (fun r' => decide (r'.key = k)) with
    | some r' => rfl
    | none =>
      simp only [Option.none_or]
      by_cases hk : r.key = k
      · subst hk; simp
      · have hk' : ¬ k = r.key := fun hcon => hk hcon.symm
        simp [hk, hk']

/-- Claim C5: aggregation followed by upsert is idempotent — upserting the
recomputed aggregate of the same input a second time leaves the store exactly
as after the first upsert, for every input row set and every prior store
state. -/
theorem claim_C5_aggregate_upsert_idempotent (df : List RawRow)
    (store : ℤ × String × ℤ → Option AggValues) :
    upsert_aggregates (aggregate_hourly df)
        (upsert_aggregates (aggregate_hourly df) store) =
      upsert_aggregates (aggregate_hourly df) store := by
  funext k
  rw [upsert_aggregates_apply, upsert_aggregates_apply]
  cases hf : (aggregate_hourly df).reverse.find? (fun r => decide (r.key = k)) with
  | some r => rfl
  | none => rfl

/-- Witness for C8: starting from the empty table (which trivially satisfies
the invariant), one store run leaves exactly one row for the written key. -/
theorem claim_C8_witness :
    (∀ k, keyCount [] k ≤ 1) ∧
    keyCount (store_trend false [] 1 "glucose" "stable" 0).1 (1, "glucose") = 1 :=
  ⟨fun _ => by simp [keyCount],
    (claim_C8_one_row_per_key [] 1 "glucose" "stable" 0
      (fun _ => by simp [keyCount])).2.1⟩

/-- Witness for C10: equal numeric signals, one run with a seasonal result and
one without, yield the same label. -/
theorem claim_C10_witness :
    classify_trend "glucose" ⟨⟨1, 0, 0⟩, 50, 0, some ⟨1, 1⟩⟩ =
      classify_trend "glucose" ⟨⟨1, 0, 0⟩, 50, 0, none⟩ :=
  claim_C10_seasonal_noninterference "glucose" _ _ rfl rfl rfl
